import Mathlib

/-!
Verification of the volumetric and triangle-mesh geometry core of SScanSS-2.

The development shallowly embeds, over exact rational arithmetic:
  * `segment_plane_intersection`, `mesh_plane_intersection` and
    `closest_triangle_to_point` from `sscanss/core/mesh/geometry.py`;
  * the `Curve` and `Volume` classes from `sscanss/core/geometry/volume.py`.

Machine floating point is idealised as `ℚ`; the numerical formulas are
translated operation by operation from the Python source.
-/

namespace SScanSS

/-- A vector in 3D space, mirroring the 3-float rows used throughout the
geometry code. -/
structure Vec3 where
  x : ℚ
  y : ℚ
  z : ℚ
  deriving DecidableEq

namespace Vec3

instance : Zero Vec3 := ⟨⟨0, 0, 0⟩⟩

instance : Add Vec3 := ⟨fun a b => ⟨a.x + b.x, a.y + b.y, a.z + b.z⟩⟩

instance : Sub Vec3 := ⟨fun a b => ⟨a.x - b.x, a.y - b.y, a.z - b.z⟩⟩

instance : Neg Vec3 := ⟨fun a => ⟨-a.x, -a.y, -a.z⟩⟩

instance : SMul ℚ Vec3 := ⟨fun t a => ⟨t * a.x, t * a.y, t * a.z⟩⟩

@[simp] theorem zero_x : (0 : Vec3).x = 0 := rfl

@[simp] theorem zero_y : (0 : Vec3).y = 0 := rfl

@[simp] theorem zero_z : (0 : Vec3).z = 0 := rfl

@[simp] theorem add_x (a b : Vec3) : (a + b).x = a.x + b.x := rfl

@[simp] theorem add_y (a b : Vec3) : (a + b).y = a.y + b.y := rfl

@[simp] theorem add_z (a b : Vec3) : (a + b).z = a.z + b.z := rfl

@[simp] theorem sub_x (a b : Vec3) : (a - b).x = a.x - b.x := rfl

@[simp] theorem sub_y (a b : Vec3) : (a - b).y = a.y - b.y := rfl

@[simp] theorem sub_z (a b : Vec3) : (a - b).z = a.z - b.z := rfl

@[simp] theorem neg_x (a : Vec3) : (-a).x = -a.x := rfl

@[simp] theorem neg_y (a : Vec3) : (-a).y = -a.y := rfl

@[simp] theorem neg_z (a : Vec3) : (-a).z = -a.z := rfl

@[simp] theorem smul_x (t : ℚ) (a : Vec3) : (t • a).x = t * a.x := rfl

@[simp] theorem smul_y (t : ℚ) (a : Vec3) : (t • a).y = t * a.y := rfl

@[simp] theorem smul_z (t : ℚ) (a : Vec3) : (t • a).z = t * a.z := rfl

@[ext] theorem ext {a b : Vec3} (hx : a.x = b.x) (hy : a.y = b.y) (hz : a.z = b.z) :
    a = b := by
  cases a; cases b; simp_all

/-- Dot product (`np.einsum` row-wise dot in the source). -/
def dot (a b : Vec3) : ℚ := a.x * b.x + a.y * b.y + a.z * b.z

/-- Cross product (`np.cross` in the source). -/
def cross (a b : Vec3) : Vec3 :=
  ⟨a.y * b.z - a.z * b.y, a.z * b.x - a.x * b.z, a.x * b.y - a.y * b.x⟩

/-- Squared Euclidean norm. -/
def sqNorm (a : Vec3) : ℚ := dot a a

theorem dot_comm (a b : Vec3) : dot a b = dot b a := by
  simp [dot]; ring

theorem sqNorm_sub_comm (a b : Vec3) : sqNorm (a - b) = sqNorm (b - a) := by
  simp [sqNorm, dot]; ring

theorem sub_add_eq (p a w : Vec3) : p - (a + w) = (p - a) - w := by
  ext <;> simp <;> ring

end Vec3

/-- A plane given by a point on it and its normal, mirroring
`sscanss.core.math.Plane` as consumed by the mesh routines. -/
structure Plane where
  point : Vec3
  normal : Vec3
  deriving DecidableEq

/-- The module-level tolerance `eps = 0.000001` in `mesh/geometry.py`. -/
def eps : ℚ := 1 / 1000000

/-- Signed distance of a vertex to a plane, `np.dot(v - plane.point, plane.normal)`
as computed in `mesh_plane_intersection`. -/
def signedDist (plane : Plane) (v : Vec3) : ℚ := Vec3.dot (v - plane.point) plane.normal

/-- Shallow embedding of `segment_plane_intersection(point_a, point_b, plane)`:
`ab = b - a`, `n = -dot(normal, a - plane.point)`, `d = dot(normal, ab)`;
`None` when `-eps < d < eps`; otherwise `t = n / d` and the point `a + t * ab`
when `0 <= t <= 1`, else `None`. -/
def segment_plane_intersection (point_a point_b : Vec3) (plane : Plane) : Option Vec3 :=
  let ab := point_b - point_a
  let n := -(Vec3.dot plane.normal (point_a - plane.point))
  let d := Vec3.dot plane.normal ab
  if -eps < d ∧ d < eps then none
  else
    let t := n / d
    if 0 ≤ t ∧ t ≤ 1 then some (point_a + t • ab) else none

theorem signedDist_sub (plane : Plane) (a b : Vec3) :
    Vec3.dot plane.normal (b - a) = signedDist plane b - signedDist plane a := by
  simp [signedDist, Vec3.dot]; ring

theorem dot_signedDist (plane : Plane) (a : Vec3) :
    Vec3.dot plane.normal (a - plane.point) = signedDist plane a := by
  simp [signedDist, Vec3.dot]; ring

theorem dot_add_smul (n u : Vec3) (t : ℚ) (v : Vec3) :
    Vec3.dot n (u + t • v) = Vec3.dot n u + t * Vec3.dot n v := by
  simp [Vec3.dot]; ring

theorem sub_point_add (a p : Vec3) (t : ℚ) (ab : Vec3) :
    a + t • ab - p = (a - p) + t • ab := by
  ext <;> simp <;> ring

/-- C3 (amended): `segment_plane_intersection a b plane` returns `None` when `a`
and `b` lie strictly on the same side of the plane; it also returns `None`
whenever `|dot(normal, b - a)| < eps` (the `eps = 1e-6` parallel-segment guard),
even when the endpoints straddle the plane; in all remaining cases
(endpoints not strictly on the same side and `|dot(normal, b - a)| ≥ eps`)
it returns a point `q` satisfying `dot(normal, q - plane.point) = 0` exactly. -/
theorem segment_plane_intersection_spec (a b : Vec3) (plane : Plane) :
    (0 < signedDist plane a → 0 < signedDist plane b →
      segment_plane_intersection a b plane = none) ∧
    (signedDist plane a < 0 → signedDist plane b < 0 →
      segment_plane_intersection a b plane = none) ∧
    (-eps < Vec3.dot plane.normal (b - a) → Vec3.dot plane.normal (b - a) < eps →
      segment_plane_intersection a b plane = none) ∧
    (¬(0 < signedDist plane a ∧ 0 < signedDist plane b) →
      ¬(signedDist plane a < 0 ∧ signedDist plane b < 0) →
      ¬(-eps < Vec3.dot plane.normal (b - a) ∧ Vec3.dot plane.normal (b - a) < eps) →
      ∃ q, segment_plane_intersection a b plane = some q ∧
        Vec3.dot plane.normal (q - plane.point) = 0) := by
  set sa := signedDist plane a with hsa
  set sb := signedDist plane b with hsb
  have hd : Vec3.dot plane.normal (b - a) = sb - sa := signedDist_sub plane a b
  refine ⟨?_, ?_, ?_, ?_⟩
  · -- both strictly positive
    intro ha hb
    simp only [segment_plane_intersection]
    split
    · rfl
    · rename_i hband
      rw [hd] at hband
      have hdne : sb - sa ≠ 0 := by
        intro h0
        exact hband ⟨by rw [h0]; exact neg_neg_of_pos (by norm_num [eps]), by
          rw [h0]; norm_num [eps]⟩
      simp only [dot_signedDist, ← hsa, hd]
      split
      · rename_i ht
        obtain ⟨ht0, ht1⟩ := ht
        rcases lt_or_gt_of_ne hdne with hneg | hpos
        · rw [div_le_iff_of_neg hneg] at ht1
          linarith
        · rw [le_div_iff₀ hpos] at ht0
          linarith
      · rfl
  · -- both strictly negative
    intro ha hb
    simp only [segment_plane_intersection]
    split
    · rfl
    · rename_i hband
      rw [hd] at hband
      have hdne : sb - sa ≠ 0 := by
        intro h0
        exact hband ⟨by rw [h0]; exact neg_neg_of_pos (by norm_num [eps]), by
          rw [h0]; norm_num [eps]⟩
      simp only [dot_signedDist, ← hsa, hd]
      split
      · rename_i ht
        obtain ⟨ht0, ht1⟩ := ht
        rcases lt_or_gt_of_ne hdne with hneg | hpos
        · rw [le_div_iff_of_neg hneg] at ht0
          linarith
        · rw [div_le_iff₀ hpos] at ht1
          linarith
      · rfl
  · -- the eps guard
    intro h1 h2
    simp only [segment_plane_intersection]
    split
    · rfl
    · rename_i hband
      exact absurd ⟨h1, h2⟩ hband
  · -- a genuine crossing is produced and lies on the plane
    intro hpos hneg hband
    have hdne : sb - sa ≠ 0 := by
      intro h0
      exact hband (by rw [hd, h0]; constructor <;> norm_num [eps])
    have hside : (sa ≤ 0 ∧ 0 ≤ sb) ∨ (sb ≤ 0 ∧ 0 ≤ sa) := by
      rcases lt_trichotomy sa 0 with h | h | h
      · rcases le_or_lt 0 sb with h' | h'
        · exact Or.inl ⟨le_of_lt h, h'⟩
        · exact absurd ⟨h, h'⟩ hneg
      · rcases le_or_lt 0 sb with h' | h'
        · exact Or.inl ⟨le_of_eq h, h'⟩
        · exact Or.inr ⟨le_of_lt h', le_of_eq h.symm⟩
      · rcases le_or_lt sb 0 with h' | h'
        · exact Or.inr ⟨h', le_of_lt h⟩
        · exact absurd ⟨h, h'⟩ hpos
    have htrange : 0 ≤ -Vec3.dot plane.normal (a - plane.point) / Vec3.dot plane.normal (b - a) ∧
        -Vec3.dot plane.normal (a - plane.point) / Vec3.dot plane.normal (b - a) ≤ 1 := by
      rw [dot_signedDist, hd, ← hsa]
      rcases hside with ⟨h1, h2⟩ | ⟨h1, h2⟩
      · have hdpos : 0 < sb - sa := lt_of_le_of_ne (by linarith) (Ne.symm hdne)
        constructor
        · exact div_nonneg (by linarith) (le_of_lt hdpos)
        · rw [div_le_one hdpos]; linarith
      · have hdneg : sb - sa < 0 := lt_of_le_of_ne (by linarith) hdne
        constructor
        · exact div_nonneg_iff.mpr (Or.inr ⟨by linarith, le_of_lt hdneg⟩)
        · rw [div_le_iff_of_neg hdneg]; linarith
    refine ⟨a + (-Vec3.dot plane.normal (a - plane.point) / Vec3.dot plane.normal (b - a)) • (b - a), ?_, ?_⟩
    · simp only [segment_plane_intersection]
      split
      · rename_i hb'
        exact absurd hb' hband
      · rfl
    · rw [sub_point_add, dot_add_smul, dot_signedDist, hd, ← hsa]
      rw [div_mul_cancel₀ _ hdne]
      ring

/-- The plane through the origin with normal along z, used for concrete tests. -/
def planeZ : Plane := ⟨0, ⟨0, 0, 1⟩⟩

/-- C3 counterexample: the endpoints `(0,0,-1e-8)` and `(0,0,1e-8)` lie strictly
on opposite sides of the plane `z = 0`, yet `segment_plane_intersection`
returns `None` because `dot(normal, b - a) = 2e-8` falls inside the `eps`
guard, refuting the claim that a point is returned whenever the endpoints are
not strictly on the same side. -/
theorem segment_plane_intersection_eps_cex :
    signedDist planeZ ⟨0, 0, -(1 / 100000000)⟩ < 0 ∧
    0 < signedDist planeZ ⟨0, 0, 1 / 100000000⟩ ∧
    segment_plane_intersection ⟨0, 0, -(1 / 100000000)⟩ ⟨0, 0, 1 / 100000000⟩ planeZ = none := by
  refine ⟨by norm_num [signedDist, Vec3.dot, planeZ], by norm_num [signedDist, Vec3.dot, planeZ], ?_⟩
  simp only [segment_plane_intersection]
  norm_num [Vec3.dot, planeZ, eps]

/-- Witness for the amended C3 theorem at concrete inputs: a segment wholly
above the plane `z = 0` yields `None`, and a segment from `z = -1` to `z = 1`
yields a crossing point lying exactly on the plane. -/
theorem segment_plane_intersection_spec_witness :
    segment_plane_intersection ⟨0, 0, 1⟩ ⟨0, 0, 2⟩ planeZ = none ∧
    ∃ q, segment_plane_intersection ⟨0, 0, -1⟩ ⟨0, 0, 1⟩ planeZ = some q ∧
      Vec3.dot planeZ.normal (q - planeZ.point) = 0 := by
  constructor
  · exact (segment_plane_intersection_spec ⟨0, 0, 1⟩ ⟨0, 0, 2⟩ planeZ).1
      (by norm_num [signedDist, Vec3.dot, planeZ])
      (by norm_num [signedDist, Vec3.dot, planeZ])
  · exact (segment_plane_intersection_spec ⟨0, 0, -1⟩ ⟨0, 0, 1⟩ planeZ).2.2.2
      (by norm_num [signedDist, Vec3.dot, planeZ])
      (by norm_num [signedDist, Vec3.dot, planeZ])
      (by norm_num [Vec3.dot, planeZ, eps])

/-- Clamping to the unit interval, `np.clip(v, 0.0, 1.0)`. -/
def clamp01 (q : ℚ) : ℚ := min 1 (max 0 q)

theorem clamp01_nonneg (q : ℚ) : 0 ≤ clamp01 q :=
  le_min (by norm_num) (le_max_left 0 q)

theorem clamp01_le_one (q : ℚ) : clamp01 q ≤ 1 := min_le_left 1 _

/-- The two members of the `Curve.Type` enum. -/
inductive CurveType
  | Cubic
  | Linear
  deriving DecidableEq

/-- Exceptions that a `Curve` construction call can surface to its caller. -/
inductive PyError
  | invalidCurveDefinition
  | valueError
  | indexError
  deriving DecidableEq

/-- The state of a `Curve` object relevant to evaluation: the stored `inputs`
and `outputs` arrays and the fitted interpolant `f` (`None` exactly when fewer
than 2 input points were supplied).  The rasterised 256-entry
`transfer_function` is a derived artifact not referenced by any claim and is
omitted. -/
structure Curve where
  inputs : List ℚ
  outputs : List ℚ
  f : Option (ℚ → ℚ)

/-- Element-wise semantics of `Curve.evaluate`: clip the interpolant value (or
`outputs[0]` when no model was fitted) to `[0, 1]`, then overwrite positions
with `x < inputs[0]` by `outputs[0]` verbatim and afterwards positions with
`x > inputs[-1]` by `outputs[-1]` verbatim.  Python raises `IndexError` on
empty `inputs`/`outputs`; the `headD`/`getLastD` defaults below are never
reached for a curve produced by `Curve.create`. -/
def Curve.evaluate (c : Curve) (x : ℚ) : ℚ :=
  let base :=
    match c.f with
    | none => clamp01 (c.outputs.headD 0)
    | some f => clamp01 (f x)
  let below := if x < c.inputs.headD 0 then c.outputs.headD 0 else base
  if x > c.inputs.getLastD 0 then c.outputs.getLastD 0 else below

/-- Shallow embedding of `Curve.__init__(inputs, outputs, bounds, curve_type)`.
The scipy fitting routines are external code, so the fitted interpolants are
taken as parameters `cubicFit`/`linearFit`; the validation they perform when
`len(inputs) > 1` (raising `ValueError` on a length mismatch, and on
non-increasing abscissas for `CubicSpline`) is modelled explicitly, as is the
`IndexError` raised by the constructor's immediate `self.evaluate` call when
`inputs` or `outputs` is empty.  `Curve.__init__` itself contains no
validation of its own and never raises `InvalidCurveDefinition`.  The
`bounds` argument only feeds the omitted `transfer_function` raster and is
dropped. -/
def Curve.create (cubicFit linearFit : List ℚ → List ℚ → ℚ → ℚ)
    (inputs outputs : List ℚ) (curve_type : CurveType) : Except PyError Curve :=
  if 1 < inputs.length then
    if inputs.length ≠ outputs.length then .error .valueError
    else if curve_type = .Cubic ∧ ¬ List.Chain' (· < ·) inputs then .error .valueError
    else .ok ⟨inputs, outputs,
      some (if curve_type = .Cubic then cubicFit inputs outputs else linearFit inputs outputs)⟩
  else if inputs.isEmpty ∨ outputs.isEmpty then .error .indexError
  else .ok ⟨inputs, outputs, none⟩

/-- A curve produced by `Curve.create` from a single input `0` and the single
(out-of-range) output `2`, exercising the unclamped extrapolation paths. -/
def curveOutOfRange : Curve :=
  (Curve.create (fun _ _ _ => 0) (fun _ _ _ => 0) [0] [2] CurveType.Cubic).toOption.getD
    ⟨[], [], none⟩

/-- C5 (amended): for every curve state and every query `x` lying between
`inputs[0]` and `inputs[-1]`, `Curve.evaluate` returns a value in `[0, 1]`
(the clipped interpolant value), whatever the fitted interpolant computes;
outside that input range the endpoint outputs are used verbatim and the
result can leave `[0, 1]`. -/
theorem curve_evaluate_clamped (c : Curve) (x : ℚ)
    (h1 : c.inputs.headD 0 ≤ x) (h2 : x ≤ c.inputs.getLastD 0) :
    0 ≤ c.evaluate x ∧ c.evaluate x ≤ 1 := by
  unfold Curve.evaluate
  rw [if_neg (by exact not_lt_of_le h2), if_neg (by exact not_lt_of_le h1)]
  match c.f with
  | none => exact ⟨clamp01_nonneg _, clamp01_le_one _⟩
  | some f => exact ⟨clamp01_nonneg _, clamp01_le_one _⟩

/-- Witness for the amended C5 theorem at a concrete curve and in-range input. -/
theorem curve_evaluate_clamped_witness :
    0 ≤ Curve.evaluate ⟨[0, 1], [3, 4], some (fun _ => 5)⟩ (1 / 2) ∧
    Curve.evaluate ⟨[0, 1], [3, 4], some (fun _ => 5)⟩ (1 / 2) ≤ 1 :=
  curve_evaluate_clamped ⟨[0, 1], [3, 4], some (fun _ => 5)⟩ (1 / 2)
    (by norm_num) (by norm_num)

/-- C5 counterexample: the curve built by `Curve.create` from `inputs = [0]`,
`outputs = [2]` evaluates to `2` at `x = -1` (the `x < inputs[0]` overwrite
uses `outputs[0]` verbatim, after the clip), so evaluation is not always in
`[0, 1]`. -/
theorem curve_evaluate_not_clamped_cex :
    Curve.evaluate curveOutOfRange (-1) = 2 ∧ ¬ Curve.evaluate curveOutOfRange (-1) ≤ 1 := by
  constructor <;> decide

/-- C6: for every curve state with at least one input point and
`inputs[0] ≤ inputs[-1]` (as holds for the strictly increasing abscissas the
data model prescribes), every query below `inputs[0]` evaluates to
`outputs[0]` verbatim and every query above `inputs[-1]` evaluates to
`outputs[-1]` verbatim, independent of the fitted interpolant. -/
theorem curve_evaluate_flat_extrapolation (c : Curve) (x : ℚ)
    (hne : c.inputs ≠ []) (hmono : c.inputs.headD 0 ≤ c.inputs.getLastD 0) :
    (x < c.inputs.headD 0 → c.evaluate x = c.outputs.headD 0) ∧
    (c.inputs.getLastD 0 < x → c.evaluate x = c.outputs.getLastD 0) := by
  constructor
  · intro hx
    unfold Curve.evaluate
    rw [if_neg (by exact not_lt_of_le (le_of_lt (lt_of_lt_of_le hx hmono))), if_pos hx]
  · intro hx
    unfold Curve.evaluate
    rw [if_pos hx]

/-- Witness for C6: a two-point curve whose interpolant is the constant `5`
still returns the endpoint outputs `3` and `4` verbatim outside the range. -/
theorem curve_evaluate_flat_extrapolation_witness :
    Curve.evaluate ⟨[0, 1], [3, 4], some (fun _ => 5)⟩ (-2) = 3 ∧
    Curve.evaluate ⟨[0, 1], [3, 4], some (fun _ => 5)⟩ 2 = 4 := by
  constructor
  · have h := (curve_evaluate_flat_extrapolation ⟨[0, 1], [3, 4], some (fun _ => 5)⟩ (-2)
      (by simp) (by norm_num)).1 (by norm_num)
    simpa using h
  · have h := (curve_evaluate_flat_extrapolation ⟨[0, 1], [3, 4], some (fun _ => 5)⟩ 2
      (by simp) (by norm_num)).2 (by norm_num)
    simpa using h

/-- C7 (amended): a successful `Curve.create` call with fewer than 2 input
points builds no fitting model (`f` is `None`); the resulting evaluation
returns `outputs[0]` clipped to `[0, 1]` only at `x = inputs[0]`, while for
`x < inputs[0]` it returns `outputs[0]` verbatim and for `x > inputs[0]` it
returns `outputs[-1]` verbatim, without clamping. -/
theorem curve_single_input_spec (cubicFit linearFit : List ℚ → List ℚ → ℚ → ℚ)
    (inputs outputs : List ℚ) (t : CurveType) (c : Curve)
    (hlen : inputs.length ≤ 1)
    (hok : Curve.create cubicFit linearFit inputs outputs t = .ok c) :
    c.f = none ∧
    (c.evaluate (c.inputs.headD 0) = clamp01 (c.outputs.headD 0)) ∧
    (∀ x, x < c.inputs.headD 0 → c.evaluate x = c.outputs.headD 0) ∧
    (∀ x, c.inputs.headD 0 < x → c.evaluate x = c.outputs.getLastD 0) := by
  unfold Curve.create at hok
  rw [if_neg (by omega)] at hok
  by_cases hemp : inputs.isEmpty ∨ outputs.isEmpty
  · rw [if_pos hemp] at hok
    cases hok
  · rw [if_neg hemp] at hok
    obtain ⟨a, hinputs⟩ : ∃ a, inputs = [a] := by
      cases inputs with
      | nil => simp at hemp
      | cons a rest =>
        cases rest with
        | nil => exact ⟨a, rfl⟩
        | cons b rest' => simp at hlen
    cases hok
    subst hinputs
    refine ⟨rfl, ?_, ?_, ?_⟩
    · show (if a > a then outputs.getLastD 0 else if a < a then outputs.headD 0
        else clamp01 (outputs.headD 0)) = clamp01 (outputs.headD 0)
      rw [if_neg (lt_irrefl a), if_neg (lt_irrefl a)]
    · intro x hx
      replace hx : x < a := hx
      show (if x > a then outputs.getLastD 0 else if x < a then outputs.headD 0
        else clamp01 (outputs.headD 0)) = outputs.headD 0
      rw [if_neg (lt_asymm hx), if_pos hx]
    · intro x hx
      replace hx : a < x := hx
      show (if x > a then outputs.getLastD 0 else if x < a then outputs.headD 0
        else clamp01 (outputs.headD 0)) = outputs.getLastD 0
      rw [if_pos hx]

/-- Witness for the amended C7 theorem at a concrete single-point curve. -/
theorem curve_single_input_spec_witness :
    (⟨[5], [1 / 2], none⟩ : Curve).f = none ∧
    Curve.evaluate ⟨[5], [1 / 2], none⟩ 7 = 1 / 2 := by
  have h := curve_single_input_spec (fun _ _ _ => 0) (fun _ _ _ => 0) [5] [1 / 2]
    CurveType.Cubic ⟨[5], [1 / 2], none⟩ (by norm_num) (by rfl)
  refine ⟨h.1, ?_⟩
  have h2 := h.2.2.2 7 (by norm_num)
  simpa using h2

/-- C7 counterexample: the single-input curve with `outputs = [2]` evaluates
to `2` (not `clamp01 2 = 1`) at `x = 1`, so evaluation is not the constant
`outputs[0]` clamped to `[0, 1]`. -/
theorem curve_single_input_cex :
    Curve.evaluate curveOutOfRange 1 = 2 ∧ clamp01 ((curveOutOfRange).outputs.headD 0) = 1 := by
  constructor <;> decide

/-- C8 (amended): `Curve` construction never surfaces `InvalidCurveDefinition`
(no such validation exists in the constructor).  A length mismatch is fatal
only when `len(inputs) > 1`, in which case the scipy interpolant constructor
raises `ValueError`; with `len(inputs) ≤ 1` a mismatch goes undetected and a
curve is produced whenever `inputs` and `outputs` are nonempty. -/
theorem curve_create_no_invalid_definition (cubicFit linearFit : List ℚ → List ℚ → ℚ → ℚ)
    (inputs outputs : List ℚ) (t : CurveType) :
    (Curve.create cubicFit linearFit inputs outputs t ≠ .error .invalidCurveDefinition) ∧
    (1 < inputs.length → inputs.length ≠ outputs.length →
      Curve.create cubicFit linearFit inputs outputs t = .error .valueError) ∧
    (inputs.length ≤ 1 → inputs ≠ [] → outputs ≠ [] →
      Curve.create cubicFit linearFit inputs outputs t = .ok ⟨inputs, outputs, none⟩) := by
  refine ⟨?_, ?_, ?_⟩
  · unfold Curve.create
    split_ifs <;> simp
  · intro h1 h2
    unfold Curve.create
    rw [if_pos h1, if_pos h2]
  · intro h1 h2 h3
    unfold Curve.create
    rw [if_neg (by omega), if_neg (by simp [h2, h3])]

/-- Witness for the amended C8 theorem: a mismatched two-point input fails
with `ValueError`, and a mismatched single-point input succeeds. -/
theorem curve_create_no_invalid_definition_witness :
    Curve.create (fun _ _ _ => 0) (fun _ _ _ => 0) [0, 1] [3] CurveType.Linear =
      .error .valueError ∧
    Curve.create (fun _ _ _ => 0) (fun _ _ _ => 0) [0] [3, 4] CurveType.Linear =
      .ok ⟨[0], [3, 4], none⟩ := by
  constructor
  · exact (curve_create_no_invalid_definition _ _ [0, 1] [3] CurveType.Linear).2.1
      (by norm_num) (by norm_num)
  · exact (curve_create_no_invalid_definition _ _ [0] [3, 4] CurveType.Linear).2.2
      (by norm_num) (by simp) (by simp)

/-- C8 counterexample: `inputs = [0]` and `outputs = [1/2, 7/10]` have
mismatched lengths, yet construction succeeds and produces a curve — no
`InvalidCurveDefinition` failure occurs. -/
theorem curve_create_mismatch_succeeds_cex :
    Curve.create (fun _ _ _ => 0) (fun _ _ _ => 0) [0] [1 / 2, 7 / 10] CurveType.Cubic =
      .ok ⟨[0], [1 / 2, 7 / 10], none⟩ ∧
    ([0] : List ℚ).length ≠ ([1 / 2, 7 / 10] : List ℚ).length := by
  constructor
  · rfl
  · norm_num

/-- A 3×3 matrix of rationals, the linear block fed to `Volume.rotate`. -/
structure Matrix33 where
  a11 : ℚ
  a12 : ℚ
  a13 : ℚ
  a21 : ℚ
  a22 : ℚ
  a23 : ℚ
  a31 : ℚ
  a32 : ℚ
  a33 : ℚ
  deriving DecidableEq

/-- Application of a 3×3 matrix to a vector. -/
def Matrix33.apply (m : Matrix33) (v : Vec3) : Vec3 :=
  ⟨m.a11 * v.x + m.a12 * v.y + m.a13 * v.z,
   m.a21 * v.x + m.a22 * v.y + m.a23 * v.z,
   m.a31 * v.x + m.a32 * v.y + m.a33 * v.z⟩

/-- Product of two 3×3 matrices. -/
def Matrix33.mul (m n : Matrix33) : Matrix33 :=
  ⟨m.a11 * n.a11 + m.a12 * n.a21 + m.a13 * n.a31,
   m.a11 * n.a12 + m.a12 * n.a22 + m.a13 * n.a32,
   m.a11 * n.a13 + m.a12 * n.a23 + m.a13 * n.a33,
   m.a21 * n.a11 + m.a22 * n.a21 + m.a23 * n.a31,
   m.a21 * n.a12 + m.a22 * n.a22 + m.a23 * n.a32,
   m.a21 * n.a13 + m.a22 * n.a23 + m.a23 * n.a33,
   m.a31 * n.a11 + m.a32 * n.a21 + m.a33 * n.a31,
   m.a31 * n.a12 + m.a32 * n.a22 + m.a33 * n.a32,
   m.a31 * n.a13 + m.a32 * n.a23 + m.a33 * n.a33⟩

/-- The 3×3 identity. -/
def Matrix33.one : Matrix33 := ⟨1, 0, 0, 0, 1, 0, 0, 0, 1⟩

/-- Modelled from the spec: `Matrix44` (`sscanss/core/math/matrix.py` is not
among the provided sources).  The spec uses it as a 4×4 homogeneous placement
transform — a linear block plus a translation column over the implicit last
row `(0, 0, 0, 1)` — built from `Matrix44.fromTranslation`, from a 3×3
rotation embedded in an identity, or composed by matrix multiplication. -/
structure Matrix44 where
  linear : Matrix33
  translation : Vec3
  deriving DecidableEq

/-- Homogeneous matrix product restricted to placement matrices. -/
def Matrix44.mul (m n : Matrix44) : Matrix44 :=
  ⟨m.linear.mul n.linear, m.linear.apply n.translation + m.translation⟩

/-- `Matrix44.fromTranslation(t)`. -/
def Matrix44.fromTranslation (t : Vec3) : Matrix44 := ⟨Matrix33.one, t⟩

/-- Application of a placement matrix to a 3D point. -/
def Matrix44.applyPoint (m : Matrix44) (v : Vec3) : Vec3 := m.linear.apply v + m.translation

theorem Matrix44.applyPoint_mul (m n : Matrix44) (v : Vec3) :
    (m.mul n).applyPoint v = m.applyPoint (n.applyPoint v) := by
  ext <;> simp [Matrix44.applyPoint, Matrix44.mul, Matrix33.apply, Matrix33.mul] <;> ring

/-- Modelled from the spec: `BoundingBox` (`sscanss/core/geometry/mesh.py` is
not among the provided sources).  The spec records an axis-aligned box by its
maximum and minimum corner — `BoundingBox(max_point, min_point)` — and
`transform` passes the box through a placement transform. -/
structure BoundingBox where
  max_point : Vec3
  min_point : Vec3
  deriving DecidableEq

/-- Modelled from the spec: passing a bounding box through a placement
transform maps both extreme corners by the matrix. -/
def BoundingBox.transform (b : BoundingBox) (m : Matrix44) : BoundingBox :=
  ⟨m.applyPoint b.max_point, m.applyPoint b.min_point⟩

theorem BoundingBox.transform_transform (b : BoundingBox) (m n : Matrix44) :
    (b.transform n).transform m = b.transform (m.mul n) := by
  simp [BoundingBox.transform, Matrix44.applyPoint_mul]

/-- The state of a `Volume` relevant to placement and binning: the grid data
is abstracted to its `shape` (its contents influence neither the transform,
the bounding box nor the binned output shape), together with `voxel_size`,
the current `transform_matrix` and the derived `bounding_box`. -/
structure Volume where
  voxel_size : Vec3
  shape : ℕ × ℕ × ℕ
  transform_matrix : Matrix44
  bounding_box : BoundingBox

/-- `voxel_size * shape`, the `Volume.extent` property. -/
def extentOf (voxel_size : Vec3) (shape : ℕ × ℕ × ℕ) : Vec3 :=
  ⟨voxel_size.x * shape.1, voxel_size.y * shape.2.1, voxel_size.z * shape.2.2⟩

/-- The local axis-aligned box `BoundingBox(extent / 2, -extent / 2)`. -/
def localBox (voxel_size : Vec3) (shape : ℕ × ℕ × ℕ) : BoundingBox :=
  ⟨(1 / 2 : ℚ) • extentOf voxel_size shape, -((1 / 2 : ℚ) • extentOf voxel_size shape)⟩

/-- Shallow embedding of `Volume.__init__`: the transform starts as the
translation by `centre` and the bounding box is the local box passed through
it. -/
def Volume.init (voxel_size : Vec3) (shape : ℕ × ℕ × ℕ) (centre : Vec3) : Volume :=
  { voxel_size := voxel_size
    shape := shape
    transform_matrix := Matrix44.fromTranslation centre
    bounding_box := (localBox voxel_size shape).transform (Matrix44.fromTranslation centre) }

/-- Shallow embedding of `Volume.transform(matrix)`: compose on the left and
re-derive the bounding box in place. -/
def Volume.transform (v : Volume) (matrix : Matrix44) : Volume :=
  { v with
    transform_matrix := matrix.mul v.transform_matrix
    bounding_box := v.bounding_box.transform matrix }

/-- Shallow embedding of `Volume.rotate(matrix)`: embed the 3×3 block into a
4×4 identity, then `transform`. -/
def Volume.rotate (v : Volume) (matrix : Matrix33) : Volume :=
  v.transform ⟨matrix, 0⟩

/-- Shallow embedding of `Volume.translate(offset)`. -/
def Volume.translate (v : Volume) (offset : Vec3) : Volume :=
  v.transform (Matrix44.fromTranslation offset)

/-- A call to one of the three placement mutators of `Volume`. -/
inductive VolumeOp
  | rotate (matrix : Matrix33)
  | translate (offset : Vec3)
  | transform (matrix : Matrix44)

/-- Apply one mutator call. -/
def applyOp (v : Volume) : VolumeOp → Volume
  | .rotate m => v.rotate m
  | .translate t => v.translate t
  | .transform m => v.transform m

/-- Apply a finite sequence of mutator calls in order. -/
def applyOps (v : Volume) : List VolumeOp → Volume :=
  List.foldl applyOp v

theorem applyOp_invariant (box : BoundingBox) (v : Volume) (op : VolumeOp)
    (h : v.bounding_box = box.transform v.transform_matrix) :
    (applyOp v op).bounding_box = box.transform (applyOp v op).transform_matrix := by
  cases op <;>
    simp [applyOp, Volume.rotate, Volume.translate, Volume.transform, h,
      BoundingBox.transform_transform]

/-- C4: after any finite sequence of `rotate` / `translate` / `transform`
calls, the bounding box of a `Volume` equals the local axis-aligned box of
half-extents `voxel_size * shape / 2` around the origin passed through the
current composed transform, where every mutator composes its matrix on the
left of the current transform. -/
theorem volume_bounding_box_invariant (voxel_size : Vec3) (shape : ℕ × ℕ × ℕ)
    (centre : Vec3) (ops : List VolumeOp) :
    (applyOps (Volume.init voxel_size shape centre) ops).bounding_box =
      (localBox voxel_size shape).transform
        (applyOps (Volume.init voxel_size shape centre) ops).transform_matrix := by
  suffices h : ∀ (v : Volume) (box : BoundingBox),
      v.bounding_box = box.transform v.transform_matrix →
      (applyOps v ops).bounding_box = box.transform (applyOps v ops).transform_matrix by
    exact h (Volume.init voxel_size shape centre) (localBox voxel_size shape) rfl
  induction ops with
  | nil => intro v box h; exact h
  | cons op rest ih =>
    intro v box h
    exact ih (applyOp v op) box (applyOp_invariant box v op h)

/-- Python's `int(round(x))` for a real value: round half to even. -/
def pyRound (q : ℚ) : ℤ :=
  if q - ⌊q⌋ < 1 / 2 then ⌊q⌋
  else if 1 / 2 < q - ⌊q⌋ then ⌊q⌋ + 1
  else if ⌊q⌋ % 2 = 0 then ⌊q⌋ else ⌊q⌋ + 1

/-- `np.max(self.shape)` for the three-dimensional shape tuple. -/
def maxShape (shape : ℕ × ℕ × ℕ) : ℕ := max shape.1 (max shape.2.1 shape.2.2)

/-- Shallow embedding of `Volume.bin(max_dim)`, modelling the shape of the
returned render target: `scale = max_dim / np.max(shape)` and
`new_shape = tuple(int(round(dim * scale)) for dim in shape)`.  The
zero-initialised buffer contents and the external `scipy.ndimage.zoom`
resample are not modelled; the claim concerns only the output shape. -/
def Volume.bin (v : Volume) (max_dim : ℕ) : ℤ × ℤ × ℤ :=
  let scale : ℚ := (max_dim : ℚ) / (maxShape v.shape : ℚ)
  (pyRound (v.shape.1 * scale), pyRound (v.shape.2.1 * scale), pyRound (v.shape.2.2 * scale))

theorem pyRound_intCast (m : ℤ) : pyRound (m : ℚ) = m := by
  unfold pyRound
  rw [Int.floor_intCast]
  norm_num

theorem pyRound_le_of_le {q : ℚ} {m : ℤ} (h : q ≤ (m : ℚ)) : pyRound q ≤ m := by
  have hfl : ⌊q⌋ ≤ m := by
    have := Int.floor_le_floor h
    rwa [Int.floor_intCast] at this
  have hflq : (⌊q⌋ : ℚ) ≤ q := Int.floor_le q
  unfold pyRound
  split_ifs with h1 h2 h3
  · exact hfl
  · have hne : ⌊q⌋ ≠ m := by
      intro he
      rw [not_lt] at h1
      rw [he] at h1
      linarith
    omega
  · have hne : ⌊q⌋ ≠ m := by
      intro he
      rw [not_lt] at h1
      rw [he] at h1
      linarith
    omega
  · have hne : ⌊q⌋ ≠ m := by
      intro he
      rw [not_lt] at h1
      rw [he] at h1
      linarith
    omega

theorem bin_component_le (s si max_dim : ℕ) (hpos : 0 < s) (hle : si ≤ s) :
    pyRound (si * ((max_dim : ℚ) / (s : ℚ))) ≤ (max_dim : ℤ) := by
  apply pyRound_le_of_le
  have hs : (0 : ℚ) < (s : ℚ) := by exact_mod_cast hpos
  have hscale : (0 : ℚ) ≤ (max_dim : ℚ) / (s : ℚ) :=
    div_nonneg (by positivity) (le_of_lt hs)
  have hsq : (si : ℚ) ≤ (s : ℚ) := by exact_mod_cast hle
  have h1 : (si : ℚ) * ((max_dim : ℚ) / (s : ℚ)) ≤ (s : ℚ) * ((max_dim : ℚ) / (s : ℚ)) :=
    mul_le_mul_of_nonneg_right hsq hscale
  have h2 : (s : ℚ) * ((max_dim : ℚ) / (s : ℚ)) = (max_dim : ℚ) := by
    field_simp
  push_cast
  linarith

theorem bin_component_eq (s max_dim : ℕ) (hpos : 0 < s) :
    pyRound (s * ((max_dim : ℚ) / (s : ℚ))) = (max_dim : ℤ) := by
  have hs : ((s : ℚ)) ≠ 0 := by positivity
  have h2 : (s : ℚ) * ((max_dim : ℚ) / (s : ℚ)) = ((max_dim : ℤ) : ℚ) := by
    push_cast
    field_simp
  rw [h2, pyRound_intCast]

/-- C9 (amended): `Volume.bin(max_dim)` produces the shape
`(round(s1 * scale), round(s2 * scale), round(s3 * scale))` with
`scale = max_dim / max(s1, s2, s3)`, and the output shape's maximum dimension
equals `max_dim` exactly; a resulting dimension can be `0` (there is no
clamping of dimensions to be at least 1). -/
theorem volume_bin_spec (v : Volume) (max_dim : ℕ) (hpos : 0 < maxShape v.shape) :
    Volume.bin v max_dim =
      (pyRound (v.shape.1 * ((max_dim : ℚ) / (maxShape v.shape : ℚ))),
       pyRound (v.shape.2.1 * ((max_dim : ℚ) / (maxShape v.shape : ℚ))),
       pyRound (v.shape.2.2 * ((max_dim : ℚ) / (maxShape v.shape : ℚ)))) ∧
    max (Volume.bin v max_dim).1 (max (Volume.bin v max_dim).2.1 (Volume.bin v max_dim).2.2) =
      (max_dim : ℤ) := by
  refine ⟨rfl, ?_⟩
  set s := maxShape v.shape with hs
  have h1 : (Volume.bin v max_dim).1 ≤ (max_dim : ℤ) :=
    bin_component_le s v.shape.1 max_dim hpos (le_max_left _ _)
  have h2 : (Volume.bin v max_dim).2.1 ≤ (max_dim : ℤ) :=
    bin_component_le s v.shape.2.1 max_dim hpos (le_trans (le_max_left _ _) (le_max_right _ _))
  have h3 : (Volume.bin v max_dim).2.2 ≤ (max_dim : ℤ) :=
    bin_component_le s v.shape.2.2 max_dim hpos (le_trans (le_max_right _ _) (le_max_right _ _))
  have hcase : s = v.shape.1 ∨ s = v.shape.2.1 ∨ s = v.shape.2.2 := by
    rw [hs]
    unfold maxShape
    rcases max_choice v.shape.1 (max v.shape.2.1 v.shape.2.2) with h | h
    · exact Or.inl h
    · rcases max_choice v.shape.2.1 v.shape.2.2 with h' | h'
      · exact Or.inr (Or.inl (h.trans h'))
      · exact Or.inr (Or.inr (h.trans h'))
  have hmax_le : max (Volume.bin v max_dim).1
      (max (Volume.bin v max_dim).2.1 (Volume.bin v max_dim).2.2) ≤ (max_dim : ℤ) :=
    max_le h1 (max_le h2 h3)
  rcases hcase with h | h | h
  · have he : (Volume.bin v max_dim).1 = (max_dim : ℤ) := by
      show pyRound _ = _
      rw [← h]
      exact bin_component_eq s max_dim hpos
    exact le_antisymm hmax_le (he ▸ le_max_left _ _)
  · have he : (Volume.bin v max_dim).2.1 = (max_dim : ℤ) := by
      show pyRound _ = _
      rw [← h]
      exact bin_component_eq s max_dim hpos
    exact le_antisymm hmax_le (he ▸ le_trans (le_max_left _ _) (le_max_right _ _))
  · have he : (Volume.bin v max_dim).2.2 = (max_dim : ℤ) := by
      show pyRound _ = _
      rw [← h]
      exact bin_component_eq s max_dim hpos
    exact le_antisymm hmax_le (he ▸ le_trans (le_max_right _ _) (le_max_right _ _))

/-- A volume whose grid has shape `(1, 100, 100)`, exposing the missing
lower clamp in `Volume.bin`. -/
def volumeThin : Volume := Volume.init ⟨1, 1, 1⟩ (1, 100, 100) 0

/-- C9 counterexample: binning the `(1, 100, 100)` volume to `max_dim = 10`
yields the shape `(0, 10, 10)` — the first dimension is `round(0.1) = 0`,
not at least 1. -/
theorem volume_bin_zero_dim_cex :
    Volume.bin volumeThin 10 = (0, 10, 10) ∧ ¬(1 ≤ (Volume.bin volumeThin 10).1) := by
  have h : Volume.bin volumeThin 10 = (0, 10, 10) := by
    show (pyRound ((1 : ℕ) * ((10 : ℚ) / ((100 : ℕ) : ℚ))),
      pyRound ((100 : ℕ) * ((10 : ℚ) / ((100 : ℕ) : ℚ))),
      pyRound ((100 : ℕ) * ((10 : ℚ) / ((100 : ℕ) : ℚ)))) = ((0 : ℤ), (10 : ℤ), (10 : ℤ))
    norm_num [pyRound]
  exact ⟨h, by rw [h]; norm_num⟩

/-- A `(2, 3, 4)` volume for concrete binning checks. -/
def volumeSmall : Volume := Volume.init ⟨1, 1, 1⟩ (2, 3, 4) 0

/-- Witness for the amended C9 theorem: binning the `(2, 3, 4)` volume to
`max_dim = 8` gives a shape whose maximum dimension is exactly 8. -/
theorem volume_bin_spec_witness :
    max (Volume.bin volumeSmall 8).1
      (max (Volume.bin volumeSmall 8).2.1 (Volume.bin volumeSmall 8).2.2) = (8 : ℤ) :=
  (volume_bin_spec volumeSmall 8 (by norm_num [volumeSmall, Volume.init, maxShape])).2

/-- A triangular face, one `N x 9` row of the `faces` array split into its
three vertices `faces[:, 0:3]`, `faces[:, 3:6]`, `faces[:, 6:9]`. -/
structure Triangle where
  v1 : Vec3
  v2 : Vec3
  v3 : Vec3
  deriving DecidableEq

/-- Edge vector `v21 = v2 - v1`. -/
def v21 (f : Triangle) : Vec3 := f.v2 - f.v1

/-- Edge vector `v32 = v3 - v2`. -/
def v32 (f : Triangle) : Vec3 := f.v3 - f.v2

/-- Edge vector `v13 = v1 - v3`. -/
def v13 (f : Triangle) : Vec3 := f.v1 - f.v3

/-- Face normal `nor = np.cross(v21, v13)`. -/
def nor (f : Triangle) : Vec3 := Vec3.cross (v21 f) (v13 f)

/-- `np.sign` on an exact scalar. -/
def npSign (q : ℚ) : ℚ := if q < 0 then -1 else if q = 0 then 0 else 1

/-- The inside/outside mask value
`sign(c21 . p1) + sign(c32 . p2) + sign(c13 . p3)` with
`c21 = np.cross(v21, nor)`, `c32 = np.cross(v32, nor)`,
`c13 = np.cross(v13, nor)` and `pk = point - vk`. -/
def signSum (f : Triangle) (p : Vec3) : ℚ :=
  npSign (Vec3.dot (Vec3.cross (v21 f) (nor f)) (p - f.v1)) +
  npSign (Vec3.dot (Vec3.cross (v32 f) (nor f)) (p - f.v2)) +
  npSign (Vec3.dot (Vec3.cross (v13 f) (nor f)) (p - f.v3))

/-- The per-triangle squared distance computed by `closest_triangle_to_point`
for one candidate triangle and one query point: when the sign sum is `< 2`,
the minimum over the three edges of
`|edge * clip(dot(edge, pk) * (1 / dot(edge, edge)), 0, 1) - pk|^2`; otherwise
`(dot(nor, p1))^2 * (1 / dot(nor, nor))`. -/
def triDist (f : Triangle) (p : Vec3) : ℚ :=
  if signSum f p < 2 then
    min (Vec3.sqNorm (clamp01 (Vec3.dot (v21 f) (p - f.v1) * (1 / Vec3.dot (v21 f) (v21 f))) •
          v21 f - (p - f.v1)))
      (min (Vec3.sqNorm (clamp01 (Vec3.dot (v32 f) (p - f.v2) * (1 / Vec3.dot (v32 f) (v32 f))) •
            v32 f - (p - f.v2)))
        (Vec3.sqNorm (clamp01 (Vec3.dot (v13 f) (p - f.v3) * (1 / Vec3.dot (v13 f) (v13 f))) •
          v13 f - (p - f.v3))))
  else
    Vec3.dot (nor f) (p - f.v1) * Vec3.dot (nor f) (p - f.v1) * (1 / Vec3.dot (nor f) (nor f))

/-- Squared distance from `p` to the segment `[a, b]` with the projection
parameter clamped to `[0, 1]`, stated as in the specification. -/
def edgeDistSq (a b p : Vec3) : ℚ :=
  Vec3.sqNorm (p - (a + clamp01 (Vec3.dot (p - a) (b - a) / Vec3.dot (b - a) (b - a)) • (b - a)))

/-- Squared point-to-plane distance `(nor . p1)^2 / (nor . nor)`, stated as in
the specification. -/
def planeDistSq (f : Triangle) (p : Vec3) : ℚ :=
  Vec3.dot (nor f) (p - f.v1) ^ 2 / Vec3.dot (nor f) (nor f)

/-- The triangle distance as worded by the specification: edge-clamped segment
distances when the sign sum is below 2, point-to-plane distance otherwise. -/
def specTriDist (f : Triangle) (p : Vec3) : ℚ :=
  if signSum f p < 2 then
    min (edgeDistSq f.v1 f.v2 p) (min (edgeDistSq f.v2 f.v3 p) (edgeDistSq f.v3 f.v1 p))
  else planeDistSq f p

/-- A triangle none of whose precomputed reciprocals
`1/(edge . edge)`, `1/(nor . nor)` divides by zero. -/
def Nondegenerate (f : Triangle) : Prop :=
  Vec3.dot (v21 f) (v21 f) ≠ 0 ∧ Vec3.dot (v32 f) (v32 f) ≠ 0 ∧
  Vec3.dot (v13 f) (v13 f) ≠ 0 ∧ Vec3.dot (nor f) (nor f) ≠ 0

instance (f : Triangle) : Decidable (Nondegenerate f) := by
  unfold Nondegenerate
  infer_instance

theorem edge_code_eq (a b p : Vec3) :
    Vec3.sqNorm (clamp01 (Vec3.dot (b - a) (p - a) * (1 / Vec3.dot (b - a) (b - a))) •
      (b - a) - (p - a)) = edgeDistSq a b p := by
  unfold edgeDistSq
  rw [Vec3.sub_add_eq, Vec3.dot_comm (p - a) (b - a), mul_one_div, Vec3.sqNorm_sub_comm]

/-- First half of C1: for every (nondegenerate) triangle and query point the
code's distance equals the specification's distance formula. -/
theorem triDist_eq_specTriDist (f : Triangle) (p : Vec3) (h : Nondegenerate f) :
    triDist f p = specTriDist f p := by
  unfold triDist specTriDist
  split
  · rw [show v21 f = f.v2 - f.v1 from rfl, show v32 f = f.v3 - f.v2 from rfl,
      show v13 f = f.v1 - f.v3 from rfl, edge_code_eq, edge_code_eq, edge_code_eq]
  · rw [mul_one_div, ← sq]
    rfl

/-- `np.argmin`: index of the first minimal element of a list of distances. -/
def argminIdx : List ℚ → ℕ
  | [] => 0
  | [_] => 0
  | x :: y :: xs =>
    if x ≤ (y :: xs).getD (argminIdx (y :: xs)) 0 then 0 else argminIdx (y :: xs) + 1

theorem argminIdx_lt_length : ∀ (l : List ℚ), l ≠ [] → argminIdx l < l.length
  | [], h => absurd rfl h
  | [_], _ => Nat.zero_lt_one
  | x :: y :: xs, _ => by
    unfold argminIdx
    split
    · simp
    · have ih := argminIdx_lt_length (y :: xs) (by simp)
      simpa using Nat.succ_lt_succ ih

theorem argminIdx_le : ∀ (l : List ℚ) (i : ℕ), i < l.length →
    l.getD (argminIdx l) 0 ≤ l.getD i 0
  | [], i, h => by simp at h
  | [a], i, h => by
    have h0 : i = 0 := Nat.lt_one_iff.mp (by simpa using h)
    subst h0
    simp [argminIdx]
  | x :: y :: xs, i, h => by
    unfold argminIdx
    split
    · rename_i hle
      cases i with
      | zero => simp
      | succ i' =>
        have ih := argminIdx_le (y :: xs) i' (by simpa using h)
        calc (x :: y :: xs).getD 0 0 = x := rfl
          _ ≤ (y :: xs).getD (argminIdx (y :: xs)) 0 := hle
          _ ≤ (y :: xs).getD i' 0 := ih
          _ = (x :: y :: xs).getD (i' + 1) 0 := rfl
    · rename_i hgt
      cases i with
      | zero =>
        calc (x :: y :: xs).getD (argminIdx (y :: xs) + 1) 0
            = (y :: xs).getD (argminIdx (y :: xs)) 0 := rfl
          _ ≤ x := le_of_lt (lt_of_not_le hgt)
          _ = (x :: y :: xs).getD 0 0 := rfl
      | succ i' =>
        have ih := argminIdx_le (y :: xs) i' (by simpa using h)
        exact ih

theorem argminIdx_first : ∀ (l : List ℚ) (i : ℕ), i < argminIdx l →
    l.getD (argminIdx l) 0 < l.getD i 0
  | [], i, h => by simp [argminIdx] at h
  | [_], i, h => by simp [argminIdx] at h
  | x :: y :: xs, i, h => by
    unfold argminIdx at h ⊢
    split at h
    · omega
    · rename_i hgt
      rw [if_neg hgt]
      cases i with
      | zero =>
        calc (x :: y :: xs).getD (argminIdx (y :: xs) + 1) 0
            = (y :: xs).getD (argminIdx (y :: xs)) 0 := rfl
          _ < x := lt_of_not_le hgt
          _ = (x :: y :: xs).getD 0 0 := rfl
      | succ i' =>
        have ih := argminIdx_first (y :: xs) i' (by omega)
        exact ih

/-- Shallow embedding of `closest_triangle_to_point(faces, points)`: for each
query point, the row of `faces` at the `argmin` of the per-triangle distance
array. -/
def closest_triangle_to_point (faces : List Triangle) (points : List Vec3) : List Triangle :=
  points.map fun p => faces.getD (argminIdx (faces.map fun f => triDist f p)) ⟨0, 0, 0⟩

/-- C1: for every nonempty batch of nondegenerate triangles and every query
point, the per-triangle distance computed by the code equals the
specification's formula (edge-clamped segment distances when the sign sum is
below 2, squared point-to-plane distance otherwise), and the returned row for
each query point is the face at the first index attaining the global minimum
of those distances: its distance is `≤` every candidate's and `<` that of
every earlier index. -/
theorem closest_triangle_to_point_spec (faces : List Triangle) (points : List Vec3)
    (hne : faces ≠ []) (hnd : ∀ f ∈ faces, Nondegenerate f)
    (i : ℕ) (hi : i < points.length) :
    (∀ f ∈ faces, ∀ p, triDist f p = specTriDist f p) ∧
    (closest_triangle_to_point faces points).getD i ⟨0, 0, 0⟩ =
      faces.getD (argminIdx (faces.map fun f => specTriDist f (points.getD i 0))) ⟨0, 0, 0⟩ ∧
    (∀ j, j < faces.length →
      (faces.map fun f => specTriDist f (points.getD i 0)).getD
        (argminIdx (faces.map fun f => specTriDist f (points.getD i 0))) 0 ≤
      (faces.map fun f => specTriDist f (points.getD i 0)).getD j 0) ∧
    (∀ j, j < argminIdx (faces.map fun f => specTriDist f (points.getD i 0)) →
      (faces.map fun f => specTriDist f (points.getD i 0)).getD
        (argminIdx (faces.map fun f => specTriDist f (points.getD i 0))) 0 <
      (faces.map fun f => specTriDist f (points.getD i 0)).getD j 0) := by
  have heq : ∀ f ∈ faces, ∀ p, triDist f p = specTriDist f p :=
    fun f hf p => triDist_eq_specTriDist f p (hnd f hf)
  refine ⟨heq, ?_, ?_, ?_⟩
  · unfold closest_triangle_to_point
    have hlen : i < (points.map fun p =>
        faces.getD (argminIdx (faces.map fun f => triDist f p)) ⟨0, 0, 0⟩).length := by
      simpa using hi
    rw [List.getD_eq_getElem _ _ hlen, List.getElem_map, List.getD_eq_getElem _ _ hi]
    rw [show (faces.map fun f => triDist f points[i]) =
        faces.map fun f => specTriDist f points[i] from
      List.map_congr_left fun f hf => heq f hf points[i]]
  · intro j hj
    exact argminIdx_le _ j (by simpa using hj)
  · intro j hj
    exact argminIdx_first _ j hj

/-- C10: with at least one candidate triangle, `closest_triangle_to_point`
returns exactly one row per query point, the row for the `i`-th query point is
the `faces` row selected by the argmin of that point's distance array, and
every returned row is a member of the input `faces` list. -/
theorem closest_triangle_to_point_rows (faces : List Triangle) (points : List Vec3)
    (hne : faces ≠ []) :
    (closest_triangle_to_point faces points).length = points.length ∧
    ∀ i, i < points.length →
      (closest_triangle_to_point faces points).getD i ⟨0, 0, 0⟩ ∈ faces ∧
      (closest_triangle_to_point faces points).getD i ⟨0, 0, 0⟩ =
        faces.getD (argminIdx (faces.map fun f => triDist f (points.getD i 0))) ⟨0, 0, 0⟩ := by
  refine ⟨by simp [closest_triangle_to_point], ?_⟩
  intro i hi
  have hout : (closest_triangle_to_point faces points).getD i ⟨0, 0, 0⟩ =
      faces.getD (argminIdx (faces.map fun f => triDist f (points.getD i 0))) ⟨0, 0, 0⟩ := by
    unfold closest_triangle_to_point
    have hlen : i < (points.map fun p =>
        faces.getD (argminIdx (faces.map fun f => triDist f p)) ⟨0, 0, 0⟩).length := by
      simpa using hi
    rw [List.getD_eq_getElem _ _ hlen, List.getElem_map, List.getD_eq_getElem _ _ hi]
  refine ⟨?_, hout⟩
  rw [hout]
  have harg : argminIdx (faces.map fun f => triDist f (points.getD i 0)) < faces.length := by
    have h := argminIdx_lt_length (faces.map fun f => triDist f (points.getD i 0))
      (by simp [hne])
    simpa using h
  rw [List.getD_eq_getElem _ _ harg]
  exact List.getElem_mem harg

/-- The unit right triangle in the `z = 0` plane, a nondegenerate candidate
for concrete closest-triangle checks. -/
def tri0 : Triangle := ⟨⟨0, 0, 0⟩, ⟨1, 0, 0⟩, ⟨0, 1, 0⟩⟩

/-- Witness for C1 at a concrete batch: the single candidate `tri0` and the
query point `(0, 0, 1)` above its interior. -/
theorem closest_triangle_to_point_spec_witness :
    Nondegenerate tri0 ∧
    (closest_triangle_to_point [tri0] [⟨0, 0, 1⟩]).getD 0 ⟨0, 0, 0⟩ =
      [tri0].getD
        (argminIdx ([tri0].map fun f => specTriDist f (([⟨0, 0, 1⟩] : List Vec3).getD 0 0)))
        ⟨0, 0, 0⟩ := by
  refine ⟨by norm_num [Nondegenerate, v21, v32, v13, nor, Vec3.cross, Vec3.dot, tri0], ?_⟩
  exact (closest_triangle_to_point_spec [tri0] [⟨0, 0, 1⟩] (by simp)
    (by
      intro f hf
      simp only [List.mem_singleton] at hf
      subst hf
      norm_num [Nondegenerate, v21, v32, v13, nor, Vec3.cross, Vec3.dot, tri0]) 0
    (by norm_num)).2.1

/-- Witness for C10 at a concrete batch: one candidate, one query point. -/
theorem closest_triangle_to_point_rows_witness :
    (closest_triangle_to_point [tri0] [⟨2, 2, 2⟩]).length = 1 ∧
    (closest_triangle_to_point [tri0] [⟨2, 2, 2⟩]).getD 0 ⟨0, 0, 0⟩ ∈ [tri0] := by
  have h := closest_triangle_to_point_rows [tri0] [⟨2, 2, 2⟩] (by simp)
  exact ⟨h.1, (h.2 0 (by norm_num)).1⟩

/-- A triangular mesh: a vertex buffer and an index buffer, as consumed by
`mesh_plane_intersection` (`mesh.vertices[mesh.indices]` grouped in threes). -/
structure Mesh where
  vertices : List Vec3
  indices : List ℕ

/-- Grouping of the gathered vertex list into consecutive vertex triples,
one per face. -/
def groupTriples : List Vec3 → List Triangle
  | a :: b :: c :: rest => ⟨a, b, c⟩ :: groupTriples rest
  | _ => []

/-- The faces of a mesh, `all_vertices = mesh.vertices[mesh.indices]` split
into rows of three. -/
def facesOfMesh (m : Mesh) : List Triangle :=
  groupTriples (m.indices.map fun i => m.vertices.getD i 0)

/-- The first two collected crossing points; the source loop appends found
crossings and emits (then stops) as soon as two have been found. -/
def firstTwoPoints : List Vec3 → List Vec3
  | q1 :: q2 :: _ => [q1, q2]
  | _ => []

/-- The intersection points contributed by a single face.  The branches mirror
the source: the mesh-level prefilter drops faces whose three signed distances
are all strictly positive or all strictly negative (first branch, emitting
nothing either way); then the loop body switches on `np.nonzero(dist)`:
all-zero faces are skipped, one nonzero distance emits the opposite edge
directly, two nonzero distances test the single edge joining the nonzero
vertices and emit (zero vertex, crossing) when it exists, and otherwise the
edges `(0,1), (1,2), (0,2)` are tested in order with the first two crossings
emitted. -/
def processFace (plane : Plane) (f : Triangle) : List Vec3 :=
  if (0 < signedDist plane f.v1 ∧ 0 < signedDist plane f.v2 ∧ 0 < signedDist plane f.v3) ∨
      (signedDist plane f.v1 < 0 ∧ signedDist plane f.v2 < 0 ∧ signedDist plane f.v3 < 0) then
    []
  else if signedDist plane f.v1 = 0 ∧ signedDist plane f.v2 = 0 ∧ signedDist plane f.v3 = 0 then
    []
  else if signedDist plane f.v1 ≠ 0 ∧ signedDist plane f.v2 = 0 ∧ signedDist plane f.v3 = 0 then
    [f.v2, f.v3]
  else if signedDist plane f.v1 = 0 ∧ signedDist plane f.v2 ≠ 0 ∧ signedDist plane f.v3 = 0 then
    [f.v1, f.v3]
  else if signedDist plane f.v1 = 0 ∧ signedDist plane f.v2 = 0 ∧ signedDist plane f.v3 ≠ 0 then
    [f.v1, f.v2]
  else if signedDist plane f.v1 = 0 then
    match segment_plane_intersection f.v2 f.v3 plane with
    | some q => [f.v1, q]
    | none => []
  else if signedDist plane f.v2 = 0 then
    match segment_plane_intersection f.v1 f.v3 plane with
    | some q => [f.v2, q]
    | none => []
  else if signedDist plane f.v3 = 0 then
    match segment_plane_intersection f.v1 f.v2 plane with
    | some q => [f.v3, q]
    | none => []
  else
    firstTwoPoints (List.filterMap id
      [segment_plane_intersection f.v1 f.v2 plane,
       segment_plane_intersection f.v2 f.v3 plane,
       segment_plane_intersection f.v1 f.v3 plane])

/-- Shallow embedding of `mesh_plane_intersection(mesh, plane)`: the flat
concatenation, in face order, of the per-face segment endpoints. -/
def mesh_plane_intersection (m : Mesh) (plane : Plane) : List Vec3 :=
  List.join ((facesOfMesh m).map (processFace plane))

/-- C2: `mesh_plane_intersection` is the concatenation of the per-face results,
and every face is processed by the signed distances of its vertices: all
strictly positive or all strictly negative contributes nothing; all exactly
zero is skipped; exactly one nonzero distance emits the edge opposite that
vertex directly with no edge test; exactly two nonzero distances emit (the
zero vertex, the crossing of the edge joining the two nonzero vertices) when
that crossing exists; and for the remaining mixed-strict-sign faces the edges
`(0,1), (1,2), (0,2)` are tested in order and the first two crossings found
form the emitted segment. -/
theorem mesh_plane_intersection_faces (m : Mesh) (plane : Plane) (f : Triangle) :
    mesh_plane_intersection m plane =
      List.join ((facesOfMesh m).map (processFace plane)) ∧
    (((0 < signedDist plane f.v1 ∧ 0 < signedDist plane f.v2 ∧ 0 < signedDist plane f.v3) ∨
      (signedDist plane f.v1 < 0 ∧ signedDist plane f.v2 < 0 ∧ signedDist plane f.v3 < 0)) →
      processFace plane f = []) ∧
    ((signedDist plane f.v1 = 0 ∧ signedDist plane f.v2 = 0 ∧ signedDist plane f.v3 = 0) →
      processFace plane f = []) ∧
    ((signedDist plane f.v1 ≠ 0 ∧ signedDist plane f.v2 = 0 ∧ signedDist plane f.v3 = 0) →
      processFace plane f = [f.v2, f.v3]) ∧
    ((signedDist plane f.v1 = 0 ∧ signedDist plane f.v2 ≠ 0 ∧ signedDist plane f.v3 = 0) →
      processFace plane f = [f.v1, f.v3]) ∧
    ((signedDist plane f.v1 = 0 ∧ signedDist plane f.v2 = 0 ∧ signedDist plane f.v3 ≠ 0) →
      processFace plane f = [f.v1, f.v2]) ∧
    ((signedDist plane f.v1 = 0 ∧ signedDist plane f.v2 ≠ 0 ∧ signedDist plane f.v3 ≠ 0) →
      processFace plane f =
        match segment_plane_intersection f.v2 f.v3 plane with
        | some q => [f.v1, q]
        | none => []) ∧
    ((signedDist plane f.v2 = 0 ∧ signedDist plane f.v1 ≠ 0 ∧ signedDist plane f.v3 ≠ 0) →
      processFace plane f =
        match segment_plane_intersection f.v1 f.v3 plane with
        | some q => [f.v2, q]
        | none => []) ∧
    ((signedDist plane f.v3 = 0 ∧ signedDist plane f.v1 ≠ 0 ∧ signedDist plane f.v2 ≠ 0) →
      processFace plane f =
        match segment_plane_intersection f.v1 f.v2 plane with
        | some q => [f.v3, q]
        | none => []) ∧
    ((signedDist plane f.v1 ≠ 0 ∧ signedDist plane f.v2 ≠ 0 ∧ signedDist plane f.v3 ≠ 0) →
      ¬((0 < signedDist plane f.v1 ∧ 0 < signedDist plane f.v2 ∧ 0 < signedDist plane f.v3) ∨
        (signedDist plane f.v1 < 0 ∧ signedDist plane f.v2 < 0 ∧ signedDist plane f.v3 < 0)) →
      processFace plane f = firstTwoPoints (List.filterMap id
        [segment_plane_intersection f.v1 f.v2 plane,
         segment_plane_intersection f.v2 f.v3 plane,
         segment_plane_intersection f.v1 f.v3 plane])) := by
  refine ⟨rfl, ?_, ?_, ?_, ?_, ?_, ?_, ?_, ?_, ?_⟩
  · intro h
    unfold processFace
    rw [if_pos h]
  · rintro ⟨h1, h2, h3⟩
    unfold processFace
    rw [if_neg (by rintro (⟨c, _, _⟩ | ⟨c, _, _⟩) <;> rw [h1] at c <;> exact lt_irrefl 0 c),
      if_pos ⟨h1, h2, h3⟩]
  · rintro ⟨h1, h2, h3⟩
    unfold processFace
    rw [if_neg (by rintro (⟨_, c, _⟩ | ⟨_, c, _⟩) <;> rw [h2] at c <;> exact lt_irrefl 0 c),
      if_neg (fun hc => h1 hc.1), if_pos ⟨h1, h2, h3⟩]
  · rintro ⟨h1, h2, h3⟩
    unfold processFace
    rw [if_neg (by rintro (⟨c, _, _⟩ | ⟨c, _, _⟩) <;> rw [h1] at c <;> exact lt_irrefl 0 c),
      if_neg (fun hc => h2 hc.2.1), if_neg (fun hc => hc.1 h1), if_pos ⟨h1, h2, h3⟩]
  · rintro ⟨h1, h2, h3⟩
    unfold processFace
    rw [if_neg (by rintro (⟨c, _, _⟩ | ⟨c, _, _⟩) <;> rw [h1] at c <;> exact lt_irrefl 0 c),
      if_neg (fun hc => h3 hc.2.2), if_neg (fun hc => hc.1 h1),
      if_neg (fun hc => hc.2.1 h2), if_pos ⟨h1, h2, h3⟩]
  · rintro ⟨h1, h2, h3⟩
    unfold processFace
    rw [if_neg (by rintro (⟨c, _, _⟩ | ⟨c, _, _⟩) <;> rw [h1] at c <;> exact lt_irrefl 0 c),
      if_neg (fun hc => h2 hc.2.1), if_neg (fun hc => hc.1 h1),
      if_neg (fun hc => h3 hc.2.2), if_neg (fun hc => h2 hc.2.1), if_pos h1]
  · rintro ⟨h2, h1, h3⟩
    unfold processFace
    rw [if_neg (by rintro (⟨_, c, _⟩ | ⟨_, c, _⟩) <;> rw [h2] at c <;> exact lt_irrefl 0 c),
      if_neg (fun hc => h1 hc.1), if_neg (fun hc => h3 hc.2.2),
      if_neg (fun hc => h1 hc.1), if_neg (fun hc => h1 hc.1), if_neg h1, if_pos h2]
  · rintro ⟨h3, h1, h2⟩
    unfold processFace
    rw [if_neg (by rintro (⟨_, _, c⟩ | ⟨_, _, c⟩) <;> rw [h3] at c <;> exact lt_irrefl 0 c),
      if_neg (fun hc => h1 hc.1), if_neg (fun hc => h2 hc.2.1),
      if_neg (fun hc => h1 hc.1), if_neg (fun hc => h1 hc.1), if_neg h1, if_neg h2,
      if_pos h3]
  · rintro ⟨h1, h2, h3⟩ hmix
    unfold processFace
    rw [if_neg hmix, if_neg (fun hc => h1 hc.1), if_neg (fun hc => h2 hc.2.1),
      if_neg (fun hc => h1 hc.1), if_neg (fun hc => h1 hc.1), if_neg h1, if_neg h2,
      if_neg h3]

/-- The mixed-sign triangle from the specification's test properties, with one
vertex below and two vertices above the plane `z = 0`. -/
def triMix : Triangle := ⟨⟨0, 0, -1⟩, ⟨1, 0, 1⟩, ⟨0, 1, 1⟩⟩

/-- Witness for C2 at concrete inputs: the mixed-sign face emits the first two
of its edge crossings, and a face strictly above the plane emits nothing. -/
theorem mesh_plane_intersection_faces_witness :
    processFace planeZ triMix = firstTwoPoints (List.filterMap id
      [segment_plane_intersection triMix.v1 triMix.v2 planeZ,
       segment_plane_intersection triMix.v2 triMix.v3 planeZ,
       segment_plane_intersection triMix.v1 triMix.v3 planeZ]) ∧
    processFace planeZ ⟨⟨0, 0, 1⟩, ⟨1, 0, 1⟩, ⟨0, 1, 2⟩⟩ = [] := by
  constructor
  · exact (mesh_plane_intersection_faces ⟨[], []⟩ planeZ
      triMix).2.2.2.2.2.2.2.2.2
      (by norm_num [signedDist, Vec3.dot, planeZ, triMix])
      (by
        rintro (⟨c, _, _⟩ | ⟨_, c, _⟩) <;>
          norm_num [signedDist, Vec3.dot, planeZ, triMix] at c)
  · exact (mesh_plane_intersection_faces ⟨[], []⟩ planeZ
      ⟨⟨0, 0, 1⟩, ⟨1, 0, 1⟩, ⟨0, 1, 2⟩⟩).2.1
      (Or.inl (by norm_num [signedDist, Vec3.dot, planeZ]))

end SScanSS
